import Mathlib

/-!
Shallow embedding of `csv_to_kml.py` (and the identical core logic of
`csv-to-kml_iphone.py`): the Column Resolver (`find_column` with the
`POSSIBLE_HEADERS` alias table) and the Track Builder (the per-row loop of
`csv_to_kml` / `process_csv`).

Strings are Lean `String`s; Python `str.strip` / `str.lower` are modelled
for the ASCII range (`pyStrip` / `pyLower`).  The Python dict built by
`{h.strip().lower(): h for h in fieldnames if h}` is modelled as an
association list with dict semantics: a duplicate key keeps its first
insertion position and takes the last written value.  Python `float` values
are modelled by `PyFloat` (exact rationals plus `inf`, `-inf`, `nan`);
rounding of decimal literals to binary64 is not modelled, which is faithful
for every comparison the program performs on the values that appear here.
The Track Builder itself is stated parametrically in a `FloatModel`, so its
theorems hold for any float semantics, including real binary64.
-/

namespace CsvToKml

/-- ASCII whitespace recognised by Python `str.strip()`. -/
def isPySpace (c : Char) : Bool :=
  c == ' ' || c == '\t' || c == '\n' || c == '\r' || c == '\x0b' || c == '\x0c'

/-- Python `s.strip()` (ASCII whitespace). -/
def pyStrip (s : String) : String :=
  ⟨((s.data.dropWhile isPySpace).reverse.dropWhile isPySpace).reverse⟩

/-- Python `s.lower()` (ASCII case folding). -/
def pyLower (s : String) : String :=
  ⟨s.data.map Char.toLower⟩

/-- The key under which a header is stored in the case-insensitive index:
`h.strip().lower()`. -/
def keyOf (h : String) : String := pyLower (pyStrip h)

/-- `startsWith needle hay`: `needle` is a prefix of `hay`. -/
def startsWith : List Char → List Char → Bool
  | [], _ => true
  | _ :: _, [] => false
  | a :: as, b :: bs => a == b && startsWith as bs

/-- `hasSub hay needle`: Python `needle in hay` on strings (substring test). -/
def hasSub : List Char → List Char → Bool
  | [], needle => startsWith needle []
  | c :: t, needle => startsWith needle (c :: t) || hasSub t needle

/-- Python `name in lower` for strings. -/
def substrB (needle hay : String) : Bool := hasSub hay.data needle.data

/-- Insert into a Python dict modelled as an association list: an existing
key keeps its position and gets the new value; a new key is appended. -/
def dictInsert : List (String × String) → String → String → List (String × String)
  | [], k, v => [(k, v)]
  | p :: t, k, v => if p.1 = k then (k, v) :: t else p :: dictInsert t k v

/-- Python `d[k]` / `k in d` combined: the value at key `k`, if present. -/
def dictLookup : List (String × String) → String → Option String
  | [], _ => none
  | p :: t, k => if p.1 = k then some p.2 else dictLookup t k

/-- The dict comprehension `{h.strip().lower(): h for h in fieldnames if h}`
of `find_column` (line 32 of `csv_to_kml.py`). -/
def lower_to_original (fieldnames : List String) : List (String × String) :=
  fieldnames.foldl (fun d h => if h ≠ "" then dictInsert d (keyOf h) h else d) []

/-- Exact pass of `find_column` (lines 33-35): first alias that is a key of
the index wins and returns its original header. -/
def exactPass (d : List (String × String)) : List String → Option String
  | [] => none
  | n :: ns =>
    match dictLookup d n with
    | some h => some h
    | none => exactPass d ns

/-- Stable insertion by `String.length`: an element is placed before the
first strictly longer one, so earlier elements precede later equal-length
ones.  Models Python's stable `candidates.sort(key=len)`. -/
def insLen (x : String) : List String → List String
  | [] => [x]
  | y :: ys => if y.length < x.length then y :: insLen x ys else x :: y :: ys

/-- Python's stable `list.sort(key=len)`. -/
def sortByLen : List String → List String
  | [] => []
  | x :: xs => insLen x (sortByLen xs)

/-- The `candidates` list of the substring pass (line 37): original headers
whose index key contains the alias, in index insertion order. -/
def candidatesOf (d : List (String × String)) (n : String) : List String :=
  (d.filter (fun p => substrB n p.1)).map (fun p => p.2)

/-- Substring pass of `find_column` (lines 36-40): for the first alias with
any substring match, sort the candidates by length (stable) and return the
first. -/
def subPass (d : List (String × String)) : List String → Option String
  | [] => none
  | n :: ns =>
    match sortByLen (candidatesOf d n) with
    | [] => subPass d ns
    | c :: _ => some c

/-- `find_column(fieldnames, possible_names)` of `csv_to_kml.py` lines
29-41.  `fieldnames = none` models Python `fieldnames is None`. -/
def find_column (fieldnames : Option (List String)) (possible_names : List String) :
    Option String :=
  match fieldnames with
  | none => none
  | some fns =>
    if fns.isEmpty then none
    else
      match exactPass (lower_to_original fns) possible_names with
      | some h => some h
      | none => subPass (lower_to_original fns) possible_names

/-- `POSSIBLE_HEADERS["timestamp"]`. -/
def timestamp_aliases : List String :=
  ["timestamp", "time", "time_utc", "datetime", "date_time", "gpstime", "utc_time"]

/-- `POSSIBLE_HEADERS["latitude"]`. -/
def latitude_aliases : List String :=
  ["latitude", "lat", "lat_deg", "lat_dd", "latitude_deg"]

/-- `POSSIBLE_HEADERS["longitude"]`. -/
def longitude_aliases : List String :=
  ["longitude", "lon", "long", "lng", "lon_deg", "lon_dd", "longitude_deg"]

/-- `POSSIBLE_HEADERS["elevation"]`. -/
def elevation_aliases : List String :=
  ["elevation", "altitude", "alt", "height", "elev", "alt_m"]

/-- The four resolved columns (spec: ColumnAssignment), as produced at lines
62-65 of `csv_to_kml.py`. -/
structure ColumnAssignment where
  ts_col : Option String
  lat_col : Option String
  lon_col : Option String
  ele_col : Option String
deriving DecidableEq, Repr

/-- The four `find_column` calls of `csv_to_kml` (lines 62-65). -/
def resolveColumns (fieldnames : Option (List String)) : ColumnAssignment where
  ts_col := find_column fieldnames timestamp_aliases
  lat_col := find_column fieldnames latitude_aliases
  lon_col := find_column fieldnames longitude_aliases
  ele_col := find_column fieldnames elevation_aliases

/-! ## Track Builder -/

/-- One CSV row as handed over by `csv.DictReader`: header → raw cell. -/
abbrev Row := List (String × String)

/-- `(row.get(col) or "")`: the cell under `col`, empty when absent. -/
def rowGet (r : Row) (k : String) : String :=
  match r.find? (fun p => p.1 == k) with
  | some p => p.2
  | none => ""

/-- The float semantics the builder runs on: `parse` is Python `float(s)`
(`none` = `ValueError`), `isZero` is `== 0.0`, `toStr` is `f"{x}"`.  The
builder theorems hold for any such model, binary64 included. -/
structure FloatModel (F : Type) where
  parse : String → Option F
  isZero : F → Bool
  toStr : F → String

/-- The four resolved column headers the row loop reads (the caller has
already checked `all([ts_col, lat_col, lon_col, ele_col])`). -/
structure TrackCols where
  ts : String
  lat : String
  lon : String
  ele : String
deriving DecidableEq, Repr

/-- Fate of one row in the loop body (lines 91-119 of `csv_to_kml.py`):
written to the track, skipped for missing/invalid data, or skipped for a
zero coordinate. -/
inductive RowClass (F : Type) where
  | written (ts : String) (lat lon ele : F)
  | skippedMissing
  | skippedZero
deriving DecidableEq

/-- The classification performed by the loop body: trim the four cells; an
empty timestamp or any failed `float` parse is skipped-missing (the
`except (ValueError, TypeError, KeyError)` fold-in); then
`lat == 0.0 or lon == 0.0` is skipped-zero; otherwise written.  Parses are
attempted in source order (lat, lon, ele). -/
def classifyRow {F : Type} (M : FloatModel F) (cols : TrackCols) (row : Row) : RowClass F :=
  let ts_val := pyStrip (rowGet row cols.ts)
  let lat_s := pyStrip (rowGet row cols.lat)
  let lon_s := pyStrip (rowGet row cols.lon)
  let ele_s := pyStrip (rowGet row cols.ele)
  if ts_val = "" then .skippedMissing
  else
    match M.parse lat_s with
    | none => .skippedMissing
    | some la =>
      match M.parse lon_s with
      | none => .skippedMissing
      | some lo =>
        match M.parse ele_s with
        | none => .skippedMissing
        | some el =>
          if M.isZero la || M.isZero lo then .skippedZero
          else .written ts_val la lo el

/-- An XML element of the `gx:Track` body: tag plus text content. -/
structure XmlElem where
  tag : String
  text : String
deriving DecidableEq, Repr

/-- `coord.text = f"{lon} {lat} {ele}"` (line 114). -/
def coordText {F : Type} (M : FloatModel F) (la lo el : F) : String :=
  M.toStr lo ++ " " ++ M.toStr la ++ " " ++ M.toStr el

/-- Loop state: the `gx:Track` children built so far plus the four counters
initialised at lines 84-87. -/
structure BuildState where
  track : List XmlElem
  rows_written : Nat
  rows_skipped : Nat
  rows_invalid_coords : Nat
  total_rows : Nat
deriving DecidableEq, Repr

/-- Counters at zero, empty track (lines 84-87). -/
def initState : BuildState := ⟨[], 0, 0, 0, 0⟩

/-- One iteration of `for row in reader` (lines 89-119): bump `total_rows`,
then act on the row's classification. -/
def stepRow {F : Type} (M : FloatModel F) (cols : TrackCols) (st : BuildState) (row : Row) :
    BuildState :=
  let st := { st with total_rows := st.total_rows + 1 }
  match classifyRow M cols row with
  | .skippedMissing => { st with rows_skipped := st.rows_skipped + 1 }
  | .skippedZero => { st with rows_invalid_coords := st.rows_invalid_coords + 1 }
  | .written ts la lo el =>
    { st with
      track := st.track ++ [⟨"when", ts⟩, ⟨"gx:coord", coordText M la lo el⟩],
      rows_written := st.rows_written + 1 }

/-- The whole row loop. -/
def processRows {F : Type} (M : FloatModel F) (cols : TrackCols) (rows : List Row) :
    BuildState :=
  rows.foldl (stepRow M cols) initState

/-- `repr(col)` as used in the detected-columns diagnostic. -/
def reprCol : Option String → String
  | some s => "'" ++ s ++ "'"
  | none => "None"

/-- The diagnostic lines of `print_detected_columns` (lines 49-53). -/
def detectedColumnsLines (a : ColumnAssignment) : List String :=
  ["Detected columns:",
   "  timestamp -> " ++ reprCol a.ts_col,
   "  latitude  -> " ++ reprCol a.lat_col,
   "  longitude -> " ++ reprCol a.lon_col,
   "  elevation -> " ++ reprCol a.ele_col]

/-- The summary printed after the loop (lines 126-132), including the
empty-track warning when `rows_written == 0`. -/
def summaryLines (kml_file : String) (st : BuildState) : List String :=
  ["Finished writing KML to: " ++ kml_file,
   "Rows processed: " ++ toString st.total_rows,
   "  Rows written: " ++ toString st.rows_written,
   "  Rows skipped (invalid/missing data): " ++ toString st.rows_skipped,
   "  Rows skipped due to invalid coordinates (0.0): " ++ toString st.rows_invalid_coords]
  ++ (if st.rows_written = 0 then
        ["Warning: no valid rows were written to KML. Check your CSV and detected columns above."]
      else [])

/-- Outcome of one conversion run: aborted at column detection
(`sys.exit(1)` at line 71), or completed with final state and log. -/
inductive RunResult where
  | aborted (log : List String)
  | completed (st : BuildState) (log : List String)
deriving DecidableEq, Repr

/-- `csv_to_kml(csv_file, kml_file)` (lines 55-132), abstracted over the
already-read header list and rows; the emitted XML track body lives in
`BuildState.track` and the printed lines in the log. -/
def csv_to_kml {F : Type} (M : FloatModel F) (fieldnames : Option (List String))
    (rows : List Row) (kml_file : String) : RunResult :=
  let a := resolveColumns fieldnames
  match a.ts_col, a.lat_col, a.lon_col, a.ele_col with
  | some tc, some lac, some loc, some ec =>
    let st := processRows M ⟨tc, lac, loc, ec⟩ rows
    .completed st (detectedColumnsLines a ++ summaryLines kml_file st)
  | _, _, _, _ =>
    .aborted (detectedColumnsLines a ++
      ["Error: Could not detect all required columns in CSV. Aborting."])

/-- The summary block appended by `process_csv` after its loop (lines
107-111 of `csv-to-kml_iphone.py`).  Unlike the CLI variant it has no
`rows_written == 0` warning line. -/
def summaryLinesIphone (output_file : String) (st : BuildState) : List String :=
  ["Saved KML: " ++ output_file,
   "Rows processed: " ++ toString st.total_rows,
   "  Rows written: " ++ toString st.rows_written,
   "  Rows skipped (invalid/missing data): " ++ toString st.rows_skipped,
   "  Rows skipped due to invalid coordinates (0.0): " ++ toString st.rows_invalid_coords]

/-- `process_csv(csv_file, output_dir)` of `csv-to-kml_iphone.py` lines
31-113, abstracted over the already-read header list and rows like
`csv_to_kml`; the function returns its log in both outcomes. -/
def process_csv {F : Type} (M : FloatModel F) (fieldnames : Option (List String))
    (rows : List Row) (csv_name output_file : String) : RunResult :=
  let a := resolveColumns fieldnames
  match a.ts_col, a.lat_col, a.lon_col, a.ele_col with
  | some tc, some lac, some loc, some ec =>
    let st := processRows M ⟨tc, lac, loc, ec⟩ rows
    .completed st (("Processing: " ++ csv_name) :: detectedColumnsLines a
      ++ summaryLinesIphone output_file st)
  | _, _, _, _ =>
    .aborted (("Processing: " ++ csv_name) :: detectedColumnsLines a
      ++ ["Error: Could not detect all required columns. Skipping."])

/-! ## A concrete model of Python floats

Exact rationals plus the three non-finite values.  `float(s)` literal
syntax is modelled (sign, digits, fraction, exponent, and the
case-insensitive special words); rounding to binary64 and digit-group
underscores are not, which is faithful for every value this development
evaluates. -/

inductive PyFloat where
  | finite (q : ℚ)
  | inf
  | neginf
  | nan
deriving DecidableEq, Repr

/-- `x == 0.0` on a Python float: only a finite zero compares equal. -/
def PyFloat.eqZero : PyFloat → Bool
  | .finite q => q.num == 0
  | _ => false

/-- Finiteness of a Python float (`math.isfinite`). -/
def PyFloat.isFinite : PyFloat → Bool
  | .finite _ => true
  | _ => false

/-- Value of a digit list read most-significant first. -/
def digitsToNat (ds : List Char) : Nat :=
  ds.foldl (fun a c => a * 10 + (c.toNat - 48)) 0

/-- Optional leading sign: `(negative?, rest)`. -/
def parseSign : List Char → Bool × List Char
  | '+' :: t => (false, t)
  | '-' :: t => (true, t)
  | cs => (false, cs)

/-- Assemble `sign * (ip . fp) * 10 ^ e` as an exact rational (built with
core `mkRat` so concrete parses evaluate in the kernel). -/
def mkFinite (neg : Bool) (ip fp : List Char) (e : Int) : PyFloat :=
  let n : Nat := digitsToNat ip * 10 ^ fp.length + digitsToNat fp
  let num : Int := if neg then -(n : Int) else (n : Int)
  match e with
  | Int.ofNat k => .finite (mkRat (num * ((10 ^ k : Nat) : Int)) (10 ^ fp.length))
  | Int.negSucc k => .finite (mkRat num (10 ^ (fp.length + (k + 1))))

/-- The decimal-literal part of `float(s)`, after the sign: digits, an
optional fraction, an optional exponent; at least one mantissa digit. -/
def parseDecimal (neg : Bool) (cs : List Char) : Option PyFloat :=
  let ip := cs.takeWhile Char.isDigit
  let rest1 := cs.dropWhile Char.isDigit
  let fp := match rest1 with
    | '.' :: t => t.takeWhile Char.isDigit
    | _ => []
  let rest2 := match rest1 with
    | '.' :: t => t.dropWhile Char.isDigit
    | _ => rest1
  if ip.isEmpty && fp.isEmpty then none
  else
    match rest2 with
    | [] => some (mkFinite neg ip fp 0)
    | e :: t =>
      if e == 'e' || e == 'E' then
        let (eneg, t2) := parseSign t
        let eds := t2.takeWhile Char.isDigit
        let rest3 := t2.dropWhile Char.isDigit
        if eds.isEmpty || !rest3.isEmpty then none
        else
          let ev : Int := if eneg then -(digitsToNat eds : Int) else (digitsToNat eds : Int)
          some (mkFinite neg ip fp ev)
      else none

/-- Python `float(s)` on an already-stripped string: `none` models the
`ValueError` caught by the row loop. -/
def pyParseFloat (s : String) : Option PyFloat :=
  let (neg, cs) := parseSign s.data
  let low := cs.map Char.toLower
  if low == "inf".data || low == "infinity".data then
    some (if neg then .neginf else .inf)
  else if low == "nan".data then some .nan
  else parseDecimal neg cs

/-- Decimal digits of the fractional part `num / den` (with `num < den`),
up to `fuel` places (Python prints at most 17 significant digits). -/
def fracDigits (num den : Nat) : Nat → List Char
  | 0 => []
  | fuel + 1 =>
    if num == 0 then []
    else Char.ofNat (48 + num * 10 / den) :: fracDigits (num * 10 % den) den fuel

/-- `f"{x}"` on a Python float, for the values this development prints:
special values as `inf` / `-inf` / `nan`, finite values as a signed decimal
with at least one fractional digit (`str(3.0) == "3.0"`).  Scientific
notation for extreme magnitudes is not modelled. -/
def pyFloatStr : PyFloat → String
  | .inf => "inf"
  | .neginf => "-inf"
  | .nan => "nan"
  | .finite q =>
    let sgn := if q.num < 0 then "-" else ""
    let na := q.num.natAbs
    let frac := fracDigits (na % q.den) q.den 17
    sgn ++ toString (na / q.den) ++ "." ++ (if frac.isEmpty then "0" else ⟨frac⟩)

/-- The Python float semantics packaged for the Track Builder. -/
def pyFloatModel : FloatModel PyFloat :=
  { parse := pyParseFloat, isZero := PyFloat.eqZero, toStr := pyFloatStr }

/-! ## Specification-side helper definitions used by the theorems -/

/-- The last header of `fns` (searching from the end) that is non-empty and
whose index key is `k`: the value Python's last-write-wins dict holds. -/
def lastVal : List String → String → Option String
  | [], _ => none
  | h :: t, k =>
    match lastVal t k with
    | some v => some v
    | none => if h ≠ "" ∧ keyOf h = k then some h else none

/-- The first element of minimal `String.length` in a list: the element a
stable sort by length brings to the front. -/
def minByLen : List String → Option String
  | [] => none
  | x :: xs =>
    match minByLen xs with
    | none => some x
    | some m => if m.length < x.length then some m else some x

/-- The `gx:Track` children the loop is specified to produce: for each
written row, in input order, a `when` element carrying the trimmed
timestamp verbatim, immediately followed by the `gx:coord` element in
`lon lat ele` order. -/
def expectedTrack {F : Type} (M : FloatModel F) (cols : TrackCols) : List Row → List XmlElem
  | [] => []
  | r :: rs =>
    match classifyRow M cols r with
    | .written ts la lo el =>
      ⟨"when", ts⟩ :: ⟨"gx:coord", coordText M la lo el⟩ :: expectedTrack M cols rs
    | _ => expectedTrack M cols rs

/-! ## Helper lemmas -/

theorem dictLookup_dictInsert (d : List (String × String)) (k v k' : String) :
    dictLookup (dictInsert d k v) k' = if k = k' then some v else dictLookup d k' := by
  induction d with
  | nil =>
    by_cases h : k = k' <;> simp [dictInsert, dictLookup, h]
  | cons p t ih =>
    simp only [dictInsert]
    by_cases hp : p.1 = k
    · rw [if_pos hp]
      by_cases h : k = k'
      · simp [dictLookup, h]
      · have hp' : ¬p.1 = k' := fun hh => h (hp.symm.trans hh)
        simp [dictLookup, h, hp']
    · rw [if_neg hp]
      by_cases hp' : p.1 = k'
      · have h : ¬k = k' := fun hh => hp (hp'.trans hh.symm)
        simp [dictLookup, hp', h]
      · simp [dictLookup, hp', ih]

theorem lookup_foldl (fns : List String) (d : List (String × String)) (k : String) :
    dictLookup (fns.foldl (fun d h => if h ≠ "" then dictInsert d (keyOf h) h else d) d) k
      = match lastVal fns k with
        | some v => some v
        | none => dictLookup d k := by
  induction fns generalizing d with
  | nil => simp [lastVal]
  | cons h t ih =>
    simp only [List.foldl_cons, lastVal]
    rw [ih]
    cases hl : lastVal t k with
    | some v => rfl
    | none =>
      by_cases hne : h ≠ ""
      · rw [if_pos hne, dictLookup_dictInsert]
        by_cases hk : keyOf h = k
        · simp [hk, hne]
        · simp [hk, hne]
      · simp at hne
        simp [hne, keyOf, pyStrip, pyLower]

theorem lto_lookup (fns : List String) (k : String) :
    dictLookup (lower_to_original fns) k = lastVal fns k := by
  rw [lower_to_original, lookup_foldl]
  cases lastVal fns k <;> simp [dictLookup]

theorem lastVal_spec (fns : List String) (k v : String) :
    lastVal fns k = some v → v ∈ fns ∧ v ≠ "" ∧ keyOf v = k := by
  induction fns with
  | nil => intro h; simp [lastVal] at h
  | cons x t ih =>
    intro h
    rw [lastVal] at h
    cases hl : lastVal t k with
    | some w =>
      simp only [hl] at h
      obtain ⟨h1, h2, h3⟩ := ih (hl.trans h)
      exact ⟨List.mem_cons_of_mem _ h1, h2, h3⟩
    | none =>
      simp only [hl] at h
      by_cases hc : x ≠ "" ∧ keyOf x = k
      · rw [if_pos hc] at h
        obtain rfl : x = v := Option.some.inj h
        exact ⟨List.mem_cons_self _ _, hc.1, hc.2⟩
      · rw [if_neg hc] at h
        cases h

theorem lastVal_isSome (fns : List String) (h : String) (hmem : h ∈ fns) (hne : h ≠ "") :
    ∃ v, lastVal fns (keyOf h) = some v := by
  induction fns with
  | nil => cases hmem
  | cons x t ih =>
    simp only [lastVal]
    cases hl : lastVal t (keyOf h) with
    | some v => exact ⟨v, rfl⟩
    | none =>
      rcases List.mem_cons.1 hmem with hx | ht


      · subst hx
        exact ⟨h, if_pos ⟨hne, rfl⟩⟩
      · obtain ⟨v, hv⟩ := ih ht
        rw [hl] at hv
        cases hv

theorem exactPass_isSome (d : List (String × String)) (pns : List String) (n : String)
    (hn : n ∈ pns) (hs : (dictLookup d n).isSome) :
    ∃ v m, exactPass d pns = some v ∧ m ∈ pns ∧ dictLookup d m = some v := by
  induction pns with
  | nil => cases hn
  | cons p ps ih =>
    cases hp : dictLookup d p with
    | some v =>
      exact ⟨v, p, by simp [exactPass, hp], List.mem_cons_self _ _, hp⟩
    | none =>
      have hn' : n ∈ ps := by
        rcases List.mem_cons.1 hn with h | h
        · subst h
          rw [hp] at hs
          cases hs
        · exact h
      obtain ⟨v, m, h1, h2, h3⟩ := ih hn'
      exact ⟨v, m, by simp [exactPass, hp, h1], List.mem_cons_of_mem _ h2, h3⟩

theorem insLen_head? (x : String) (l : List String) :
    (insLen x l).head? =
      some (match l.head? with
            | none => x
            | some y => if y.length < x.length then y else x) := by
  cases l with
  | nil => rfl
  | cons y ys =>
    rw [insLen]
    by_cases h : y.length < x.length <;> simp [h]

theorem sortByLen_eq_nil (l : List String) : sortByLen l = [] ↔ l = [] := by
  cases l with
  | nil => simp [sortByLen]
  | cons x xs =>
    rw [sortByLen]
    constructor
    · intro h
      cases hs : sortByLen xs with
      | nil => rw [hs] at h; cases h
      | cons a as =>
        rw [hs, insLen] at h
        by_cases hl : a.length < x.length
        · rw [if_pos hl] at h; cases h
        · rw [if_neg hl] at h; cases h
    · intro h; cases h

theorem sortByLen_head? (l : List String) : (sortByLen l).head? = minByLen l := by
  induction l with
  | nil => rfl
  | cons x xs ih =>
    rw [sortByLen, insLen_head?, ih, minByLen]
    cases minByLen xs with
    | none => rfl
    | some m =>
      by_cases h : m.length < x.length <;> simp [h]

theorem minByLen_ne_none (x : String) (xs : List String) : minByLen (x :: xs) ≠ none := by
  rw [minByLen]
  cases minByLen xs with
  | none => simp
  | some m => by_cases h : m.length < x.length <;> simp [h]

theorem minByLen_spec (l : List String) :
    ∀ m, minByLen l = some m → m ∈ l ∧ ∀ y ∈ l, m.length ≤ y.length := by
  induction l with
  | nil => intro m h; cases h
  | cons x xs ih =>
    intro m h
    rw [minByLen] at h
    cases hm : minByLen xs with
    | none =>
      simp only [hm] at h
      obtain rfl : x = m := Option.some.inj h
      have hxs : xs = [] := by
        cases xs with
        | nil => rfl
        | cons a as => exact absurd hm (minByLen_ne_none a as)
      subst hxs
      exact ⟨List.mem_cons_self _ _, by intro y hy; rw [List.mem_singleton.1 hy]⟩
    | some w =>
      simp only [hm] at h
      obtain ⟨hw1, hw2⟩ := ih w hm
      by_cases hb : w.length < x.length
      · rw [if_pos hb] at h
        obtain rfl : w = m := Option.some.inj h
        refine ⟨List.mem_cons_of_mem _ hw1, ?_⟩
        intro y hy
        rcases List.mem_cons.1 hy with rfl | hy'
        · exact Nat.le_of_lt hb
        · exact hw2 y hy'
      · rw [if_neg hb] at h
        obtain rfl : x = m := Option.some.inj h
        refine ⟨List.mem_cons_self _ _, ?_⟩
        intro y hy
        rcases List.mem_cons.1 hy with rfl | hy'
        · exact Nat.le_refl _
        · exact Nat.le_trans (Nat.le_of_not_lt hb) (hw2 y hy')

theorem subPass_eq (d : List (String × String)) (pns : List String) :
    subPass d pns =
      (pns.find? (fun n => !(candidatesOf d n).isEmpty)).bind
        (fun n => minByLen (candidatesOf d n)) := by
  induction pns with
  | nil => rfl
  | cons n ns ih =>
    rw [subPass]
    cases hc : sortByLen (candidatesOf d n) with
    | nil =>
      have hcand : candidatesOf d n = [] := (sortByLen_eq_nil _).1 hc
      rw [List.find?_cons_of_neg _ (by simp [hcand]), ih]
    | cons c cs =>
      have hne : (candidatesOf d n).isEmpty = false := by
        cases hl : candidatesOf d n with
        | nil => rw [hl] at hc; cases hc
        | cons a as => rfl
      have hmin : minByLen (candidatesOf d n) = some c := by
        rw [← sortByLen_head?, hc]; rfl
      rw [List.find?_cons_of_pos _ (by simp [hne])]
      exact hmin.symm

theorem stepRow_counts {F : Type} (M : FloatModel F) (cols : TrackCols) (st : BuildState)
    (row : Row) :
    (stepRow M cols st row).total_rows = st.total_rows + 1
    ∧ (stepRow M cols st row).rows_written + (stepRow M cols st row).rows_skipped
        + (stepRow M cols st row).rows_invalid_coords
      = st.rows_written + st.rows_skipped + st.rows_invalid_coords + 1 := by
  cases h : classifyRow M cols row <;>
    (constructor <;> (simp only [stepRow, h] <;> omega))

theorem foldl_counts {F : Type} (M : FloatModel F) (cols : TrackCols) (rows : List Row)
    (st : BuildState) :
    ((rows.foldl (stepRow M cols) st).total_rows = st.total_rows + rows.length)
    ∧ ((rows.foldl (stepRow M cols) st).rows_written
        + (rows.foldl (stepRow M cols) st).rows_skipped
        + (rows.foldl (stepRow M cols) st).rows_invalid_coords
      = st.rows_written + st.rows_skipped + st.rows_invalid_coords + rows.length) := by
  induction rows generalizing st with
  | nil => simp
  | cons r rs ih =>
    rw [List.foldl_cons]
    obtain ⟨h1, h2⟩ := stepRow_counts M cols st r
    obtain ⟨ih1, ih2⟩ := ih (stepRow M cols st r)
    constructor
    · rw [ih1, h1, List.length_cons]; omega
    · rw [ih2, h2, List.length_cons]; omega

theorem foldl_track {F : Type} (M : FloatModel F) (cols : TrackCols) (rows : List Row)
    (st : BuildState) :
    (rows.foldl (stepRow M cols) st).track = st.track ++ expectedTrack M cols rows := by
  induction rows generalizing st with
  | nil => simp [expectedTrack]
  | cons r rs ih =>
    rw [List.foldl_cons, ih]
    cases h : classifyRow M cols r <;>
      simp [stepRow, expectedTrack, h, List.append_assoc]

/-! ## Claims -/

/-- C1: for every row stream and resolved columns, each processed row
increments exactly one of the three counters (written, skipped-missing,
skipped-zero-coord), and after processing
`rows_written + rows_skipped + rows_invalid_coords = total_rows`, which is
the number of rows. -/
theorem C1_counters_partition {F : Type} (M : FloatModel F) (cols : TrackCols)
    (rows : List Row) :
    ((processRows M cols rows).rows_written + (processRows M cols rows).rows_skipped
        + (processRows M cols rows).rows_invalid_coords
      = (processRows M cols rows).total_rows)
    ∧ (processRows M cols rows).total_rows = rows.length
    ∧ ∀ (st : BuildState) (row : Row),
        (stepRow M cols st row).total_rows = st.total_rows + 1
        ∧ (((stepRow M cols st row).rows_written = st.rows_written + 1
              ∧ (stepRow M cols st row).rows_skipped = st.rows_skipped
              ∧ (stepRow M cols st row).rows_invalid_coords = st.rows_invalid_coords)
          ∨ ((stepRow M cols st row).rows_written = st.rows_written
              ∧ (stepRow M cols st row).rows_skipped = st.rows_skipped + 1
              ∧ (stepRow M cols st row).rows_invalid_coords = st.rows_invalid_coords)
          ∨ ((stepRow M cols st row).rows_written = st.rows_written
              ∧ (stepRow M cols st row).rows_skipped = st.rows_skipped
              ∧ (stepRow M cols st row).rows_invalid_coords = st.rows_invalid_coords + 1)) := by
  obtain ⟨h1, h2⟩ := foldl_counts M cols rows initState
  have e1 : initState.rows_written = 0 := rfl
  have e2 : initState.rows_skipped = 0 := rfl
  have e3 : initState.rows_invalid_coords = 0 := rfl
  have e4 : initState.total_rows = 0 := rfl
  refine ⟨?_, ?_, ?_⟩
  · simp only [processRows]
    omega
  · simp only [processRows]
    omega
  · intro st row
    refine ⟨(stepRow_counts M cols st row).1, ?_⟩
    cases h : classifyRow M cols row with
    | written ts la lo el => exact Or.inl (by simp [stepRow, h])
    | skippedMissing => exact Or.inr (Or.inl (by simp [stepRow, h]))
    | skippedZero => exact Or.inr (Or.inr (by simp [stepRow, h]))

/-- C2 (counterexample): the substring pass does not pick the candidate
with the shortest *lower-cased key*: with headers `"  lat1  "` and
`"lat_22"` the resolver returns `"lat_22"` (shortest *original* string)
although `"  lat1  "` also matches alias `"lat"` and its lower-cased
trimmed key `"lat1"` is strictly shorter than `"lat_22"`. -/
theorem C2_counterexample :
    exactPass (lower_to_original ["  lat1  ", "lat_22"]) latitude_aliases = none
    ∧ find_column (some ["  lat1  ", "lat_22"]) latitude_aliases = some "lat_22"
    ∧ "  lat1  " ∈ candidatesOf (lower_to_original ["  lat1  ", "lat_22"]) "lat"
    ∧ substrB "lat" (keyOf "  lat1  ") = true
    ∧ (keyOf "  lat1  ").length < (keyOf "lat_22").length := by
  refine ⟨by decide, by decide, by decide, by decide, by decide⟩

/-- C2 (amended): when the exact pass finds nothing, the resolver takes the
first alias with at least one substring match and returns, among that
alias's matches, the original header whose *original (untrimmed) string*
has the shortest length, ties broken deterministically in favour of the
earlier entry of the index (stable sort). -/
theorem C2_substring_shortest_original :
    (∀ (fns pns : List String),
        exactPass (lower_to_original fns) pns = none →
        find_column (some fns) pns =
          (pns.find? (fun n => !(candidatesOf (lower_to_original fns) n).isEmpty)).bind
            (fun n => minByLen (candidatesOf (lower_to_original fns) n)))
    ∧ ∀ (l : List String) (m : String),
        minByLen l = some m → m ∈ l ∧ ∀ y ∈ l, m.length ≤ y.length := by
  constructor
  · intro fns pns hex
    rw [← subPass_eq]
    cases fns with
    | nil =>
      have hsub : ∀ ps : List String, subPass ([] : List (String × String)) ps = none := by
        intro ps
        induction ps with
        | nil => rfl
        | cons a as ihp => simp [subPass, candidatesOf, sortByLen, ihp]
      show find_column (some []) pns = subPass (lower_to_original []) pns
      rw [show lower_to_original [] = [] from rfl, hsub]
      rfl
    | cons f fs =>
      simp [find_column, hex]
  · exact fun l => minByLen_spec l

/-- C2 witness: the amended statement evaluated on the counterexample
headers. -/
theorem C2_witness :
    find_column (some ["  lat1  ", "lat_22"]) latitude_aliases =
      (latitude_aliases.find?
          (fun n => !(candidatesOf (lower_to_original ["  lat1  ", "lat_22"]) n).isEmpty)).bind
        (fun n => minByLen (candidatesOf (lower_to_original ["  lat1  ", "lat_22"]) n)) :=
  C2_substring_shortest_original.1 ["  lat1  ", "lat_22"] latitude_aliases (by decide)

/-- C3: whenever some non-empty header's trimmed lower-cased form exactly
equals an alias of the field, the resolver returns a header whose key is an
exact alias match — regardless of header order, a merely-substring-matching
header cannot be returned because the substring pass runs only if the exact
pass found nothing. -/
theorem C3_exact_beats_substring (fns pns : List String) (h : String)
    (hmem : h ∈ fns) (hne : h ≠ "") (hkey : keyOf h ∈ pns) :
    ∃ r, find_column (some fns) pns = some r ∧ keyOf r ∈ pns := by
  have hlook : (dictLookup (lower_to_original fns) (keyOf h)).isSome := by
    rw [lto_lookup]
    obtain ⟨v, hv⟩ := lastVal_isSome fns h hmem hne
    rw [hv]
    rfl
  obtain ⟨v, m, h1, h2, h3⟩ :=
    exactPass_isSome (lower_to_original fns) pns (keyOf h) hkey hlook
  have hkv : keyOf v = m := by
    rw [lto_lookup] at h3
    exact (lastVal_spec fns m v h3).2.2
  have hne' : fns.isEmpty = false := by
    cases fns with
    | nil => cases hmem
    | cons a b => rfl
  refine ⟨v, ?_, ?_⟩
  · simp [find_column, hne', h1]
  · rw [hkv]
    exact h2

/-- C3 witness: `"Lat"` matches alias `"lat"` exactly while
`"Latitude_x"` only contains `"latitude"` as a substring; the resolver
returns an exact match. -/
theorem C3_witness :
    ∃ r, find_column (some ["Latitude_x", "Lat"]) latitude_aliases = some r
      ∧ keyOf r ∈ latitude_aliases :=
  C3_exact_beats_substring ["Latitude_x", "Lat"] latitude_aliases "Lat"
    (by decide) (by decide) (by decide)

/-- C4: a row is classified skipped-missing iff its trimmed timestamp is
empty or one of the three coordinate cells fails to parse; an empty trimmed
timestamp forces skipped-missing under every float semantics (no numeric
parse is consulted), and classification is total — a parse failure never
aborts the run. -/
theorem C4_skipped_missing_iff {F : Type} (M : FloatModel F) (cols : TrackCols) (row : Row) :
    (classifyRow M cols row = RowClass.skippedMissing ↔
      (pyStrip (rowGet row cols.ts) = ""
        ∨ M.parse (pyStrip (rowGet row cols.lat)) = none
        ∨ M.parse (pyStrip (rowGet row cols.lon)) = none
        ∨ M.parse (pyStrip (rowGet row cols.ele)) = none))
    ∧ (pyStrip (rowGet row cols.ts) = "" →
        ∀ (G : Type) (M' : FloatModel G),
          classifyRow M' cols row = RowClass.skippedMissing) := by
  constructor
  · by_cases hts : pyStrip (rowGet row cols.ts) = ""
    · simp [classifyRow, hts]
    · cases hla : M.parse (pyStrip (rowGet row cols.lat)) with
      | none => simp [classifyRow, hts, hla]
      | some la =>
        cases hlo : M.parse (pyStrip (rowGet row cols.lon)) with
        | none => simp [classifyRow, hts, hla, hlo]
        | some lo =>
          cases hel : M.parse (pyStrip (rowGet row cols.ele)) with
          | none => simp [classifyRow, hts, hla, hlo, hel]
          | some el =>
            by_cases hz : (M.isZero la || M.isZero lo) = true
            · simp [classifyRow, hts, hla, hlo, hel, hz]
            · simp [classifyRow, hts, hla, hlo, hel, hz]
  · intro hts G M'
    simp [classifyRow, hts]

/-- C4 witness: a non-numeric latitude cell is folded into skipped-missing
(spec scenario 5). -/
theorem C4_witness :
    classifyRow pyFloatModel ⟨"t", "la", "lo", "el"⟩
        [("t", "t1"), ("la", "abc"), ("lo", "2.0"), ("el", "3.0")]
      = RowClass.skippedMissing :=
  (C4_skipped_missing_iff pyFloatModel ⟨"t", "la", "lo", "el"⟩
      [("t", "t1"), ("la", "abc"), ("lo", "2.0"), ("el", "3.0")]).1.mpr
    (Or.inr (Or.inl (by decide)))

/-- C5: a row with non-empty trimmed timestamp whose three cells parse is
classified skipped-zero-coord whenever the parsed latitude or longitude is
zero — the elevation value (zero or not) plays no role. -/
theorem C5_zero_coord_skipped {F : Type} (M : FloatModel F) (cols : TrackCols) (row : Row)
    (la lo el : F)
    (hts : pyStrip (rowGet row cols.ts) ≠ "")
    (hla : M.parse (pyStrip (rowGet row cols.lat)) = some la)
    (hlo : M.parse (pyStrip (rowGet row cols.lon)) = some lo)
    (hel : M.parse (pyStrip (rowGet row cols.ele)) = some el)
    (hz : M.isZero la = true ∨ M.isZero lo = true) :
    classifyRow M cols row = RowClass.skippedZero := by
  have hz' : (M.isZero la || M.isZero lo) = true := by
    rcases hz with h | h <;> simp [h]
  simp [classifyRow, hts, hla, hlo, hel, hz']

/-- C5 witness: spec scenario 3 with elevation also `0.0`: latitude `0.0`
forces skipped-zero-coord. -/
theorem C5_witness :
    classifyRow pyFloatModel ⟨"t", "la", "lo", "el"⟩
        [("t", "2025-01-01T00:00:00Z"), ("la", "0.0"), ("lo", "12.3"), ("el", "0.0")]
      = RowClass.skippedZero :=
  C5_zero_coord_skipped pyFloatModel ⟨"t", "la", "lo", "el"⟩
    [("t", "2025-01-01T00:00:00Z"), ("la", "0.0"), ("lo", "12.3"), ("el", "0.0")]
    (PyFloat.finite (mkRat 0 1)) (PyFloat.finite (mkRat 123 10)) (PyFloat.finite (mkRat 0 1))
    (by decide) (by decide) (by decide) (by decide) (Or.inl (by decide))

/-- C6: the `gx:Track` children produced by the loop are exactly, for each
written row in input order, a `when` element holding the trimmed timestamp
verbatim immediately followed by a coordinate element whose text is
`toStr lon ++ " " ++ toStr lat ++ " " ++ toStr ele` (standard
float-to-string conversion of the parsed values, longitude first). -/
theorem C6_track_serialization {F : Type} (M : FloatModel F) (cols : TrackCols)
    (rows : List Row) :
    (processRows M cols rows).track = expectedTrack M cols rows :=
  (foldl_track M cols rows initState).trans rfl

/-- C7: the resolver is total — every input yields `none` or an original
header, absence being structural — and a `none` or empty header list
resolves all four fields to unresolved. -/
theorem C7_empty_headers_unresolved :
    resolveColumns none = ⟨none, none, none, none⟩
    ∧ resolveColumns (some []) = ⟨none, none, none, none⟩
    ∧ ∀ (fieldnames : Option (List String)) (pns : List String),
        find_column fieldnames pns = none ∨ ∃ s, find_column fieldnames pns = some s := by
  refine ⟨rfl, rfl, ?_⟩
  intro fns pns
  cases h : find_column fns pns with
  | none => exact Or.inl rfl
  | some s => exact Or.inr ⟨s, rfl⟩

/-- C8: resolution is deterministic (equal inputs give equal
ColumnAssignments); in the index, of two headers collapsing to one
lower-cased key the later wins (the lookup returns the last-written
value), and on spec scenario 6 (`"Lat"` then `"lat"`) the resolver returns
the later-declared original string. -/
theorem C8_deterministic_last_write_wins :
    (∀ f1 f2 : Option (List String), f1 = f2 → resolveColumns f1 = resolveColumns f2)
    ∧ (∀ (fns : List String) (k : String),
        dictLookup (lower_to_original fns) k = lastVal fns k)
    ∧ find_column (some ["Lat", "lat"]) latitude_aliases = some "lat" := by
  refine ⟨fun f1 f2 h => h ▸ rfl, lto_lookup, by decide⟩

/-- C8 witness: determinism applied at spec scenario 6. -/
theorem C8_witness :
    resolveColumns (some ["Lat", "lat"]) = resolveColumns (some ["Lat", "lat"]) :=
  C8_deterministic_last_write_wins.1 _ _ rfl

/-- The CLI variant does warn: every `csv_to_kml` run that completes with
zero written rows has the warning line in its summary (lines 131-132 of
`csv_to_kml.py`). -/
theorem cli_zero_written_warning {F : Type} (M : FloatModel F)
    (fieldnames : Option (List String)) (rows : List Row) (kml_file : String)
    (st : BuildState) (log : List String)
    (hrun : csv_to_kml M fieldnames rows kml_file = RunResult.completed st log)
    (hzero : st.rows_written = 0) :
    "Warning: no valid rows were written to KML. Check your CSV and detected columns above."
      ∈ log := by
  simp only [csv_to_kml] at hrun
  split at hrun
  · injection hrun with hst hlog
    subst hst
    subst hlog
    simp [summaryLines, hzero]
  · cases hrun

/-- C9 (code bug in `csv-to-kml_iphone.py`): a `process_csv` run that
completes with all four columns resolved and zero rows written returns a
log in which no line so much as contains `"Warning"` — the summary is
silent — whereas the CLI variant `csv_to_kml` emits the explicit warning
on the same input. -/
theorem C9_iphone_zero_written_no_warning :
    ∃ st log,
      process_csv pyFloatModel (some ["timestamp", "latitude", "longitude", "elevation"])
          [] "flight.csv" "KML_Output/flight.kml" = RunResult.completed st log
      ∧ st.rows_written = 0
      ∧ (∀ l ∈ log, substrB "Warning" l = false)
      ∧ ∃ st2 log2,
          csv_to_kml pyFloatModel (some ["timestamp", "latitude", "longitude", "elevation"])
            [] "out.kml" = RunResult.completed st2 log2
          ∧ "Warning: no valid rows were written to KML. Check your CSV and detected columns above."
              ∈ log2 := by
  refine ⟨initState, _, rfl, rfl, by decide, initState, _, rfl, by decide⟩

/-- C10: under the Python float model, a row whose trimmed timestamp is
non-empty and whose three cells parse to non-finite values is written —
`lat == 0.0` and `lon == 0.0` are false for non-finite values — and the
non-finite coordinate triple is emitted into the track. -/
theorem C10_nonfinite_written (cols : TrackCols) (row : Row) (la lo el : PyFloat)
    (hts : pyStrip (rowGet row cols.ts) ≠ "")
    (hla : pyParseFloat (pyStrip (rowGet row cols.lat)) = some la)
    (hlo : pyParseFloat (pyStrip (rowGet row cols.lon)) = some lo)
    (hel : pyParseFloat (pyStrip (rowGet row cols.ele)) = some el)
    (hfa : la.isFinite = false) (hfo : lo.isFinite = false) (hfe : el.isFinite = false) :
    classifyRow pyFloatModel cols row
        = RowClass.written (pyStrip (rowGet row cols.ts)) la lo el
    ∧ ∀ st : BuildState,
        (stepRow pyFloatModel cols st row).track
          = st.track ++ [⟨"when", pyStrip (rowGet row cols.ts)⟩,
                         ⟨"gx:coord", coordText pyFloatModel la lo el⟩]
        ∧ (stepRow pyFloatModel cols st row).rows_written = st.rows_written + 1 := by
  have hza : PyFloat.eqZero la = false := by
    cases la with
    | finite q => simp [PyFloat.isFinite] at hfa
    | inf => rfl
    | neginf => rfl
    | nan => rfl
  have hzo : PyFloat.eqZero lo = false := by
    cases lo with
    | finite q => simp [PyFloat.isFinite] at hfo
    | inf => rfl
    | neginf => rfl
    | nan => rfl
  have hcls : classifyRow pyFloatModel cols row
      = RowClass.written (pyStrip (rowGet row cols.ts)) la lo el := by
    simp [classifyRow, pyFloatModel, hts, hla, hlo, hel, hza, hzo]
  refine ⟨hcls, ?_⟩
  intro st
  constructor <;> simp [stepRow, hcls]

/-- C10 witness: cells `"nan"`, `"inf"`, `"-inf"` parse to non-finite
values; the row is written and the coordinate text is `"inf nan -inf"`. -/
theorem C10_witness :
    classifyRow pyFloatModel ⟨"t", "la", "lo", "el"⟩
        [("t", "t1"), ("la", "nan"), ("lo", "inf"), ("el", "-inf")]
      = RowClass.written "t1" PyFloat.nan PyFloat.inf PyFloat.neginf
    ∧ (stepRow pyFloatModel ⟨"t", "la", "lo", "el"⟩ initState
          [("t", "t1"), ("la", "nan"), ("lo", "inf"), ("el", "-inf")]).track
        = [⟨"when", "t1"⟩, ⟨"gx:coord", "inf nan -inf"⟩] := by
  have h := C10_nonfinite_written ⟨"t", "la", "lo", "el"⟩
      [("t", "t1"), ("la", "nan"), ("lo", "inf"), ("el", "-inf")]
      PyFloat.nan PyFloat.inf PyFloat.neginf
      (by decide) (by decide) (by decide) (by decide) rfl rfl rfl
  refine ⟨h.1.trans (by decide), ?_⟩
  rw [(h.2 initState).1]
  decide

end CsvToKml
